import Mathlib

/-!
Verification of the BPH-PCA → nnU-Net conversion pipeline
(`script/convert_bph_pca_to_nnunet.py`) against its specification.

Volumes are modelled as a 3-D shape together with a total voxel function
into the exact reals (the idealised semantics of the float arrays the
script manipulates).  File access (`nib.load`) and the external
`scipy.ndimage.zoom` call are modelled as oracle parameters: a load that
raises is a `none`, a `zoom` call that raises is a `none`.
-/

namespace BPHPCA

/-- A 3-D array shape `(n₁, n₂, n₃)`. -/
abbrev Shape3 := ℕ × ℕ × ℕ

/-- A 3-D volume: a shape and a total voxel function.  Entries outside the
shape are junk that no faithful operation may depend on. -/
structure Vol where
  shape : Shape3
  data : ℕ → ℕ → ℕ → ℝ

/-- The all-zero volume of a given shape (`np.zeros(shape)`). -/
def zeroVol (s : Shape3) : Vol := ⟨s, fun _ _ _ => 0⟩

/-- A constant volume of a given shape. -/
def constVol (s : Shape3) (c : ℝ) : Vol := ⟨s, fun _ _ _ => c⟩

/-- The list of in-shape voxel values, in C (row-major) order: the flattened
array a numpy reduction such as `.min()`, `.max()` or `np.percentile` sees. -/
def Vol.valuesList (v : Vol) : List ℝ :=
  (List.range v.shape.1).flatMap fun i =>
    (List.range v.shape.2.1).flatMap fun j =>
      (List.range v.shape.2.2).map fun k => v.data i j k

/-- `ndarray.min()` (defaulting to `0` on an empty volume, where numpy
would raise). -/
noncomputable def Vol.vmin (v : Vol) : ℝ :=
  match v.valuesList with
  | [] => 0
  | x :: xs => xs.foldl min x

/-- `ndarray.max()` (defaulting to `0` on an empty volume). -/
noncomputable def Vol.vmax (v : Vol) : ℝ :=
  match v.valuesList with
  | [] => 0
  | x :: xs => xs.foldl max x

/-- Two volumes hold the same array: same shape and same voxel values at
every in-shape position. -/
def sameContent (a b : Vol) : Prop :=
  a.shape = b.shape ∧
    ∀ i j k, i < a.shape.1 → j < a.shape.2.1 → k < a.shape.2.2 →
      a.data i j k = b.data i j k

/-- The volume has at least one voxel. -/
def Vol.nonemptyVol (v : Vol) : Prop :=
  0 < v.shape.1 ∧ 0 < v.shape.2.1 ∧ 0 < v.shape.2.2

/-! ## Modalities and processing modes -/

/-- The five MRI modalities the converter knows
(`ADC`, `DWI`, `T2 fs`, `T2 not fs`, `gaoqing-T2`). -/
inductive Modality where
  | ADC | DWI | T2fs | T2notfs | gaoqingT2
  deriving DecidableEq, Repr

instance : Fintype Modality :=
  ⟨⟨{.ADC, .DWI, .T2fs, .T2notfs, .gaoqingT2}, by decide⟩, by intro x; cases x <;> decide⟩

/-- The four processing modes of the converter
(`core_4`, `zero_fill`, `similarity_fill`, `strict_5`). -/
inductive ProcessingMode where
  | core4 | zeroFill | similarityFill | strict5
  deriving DecidableEq, Repr

instance : Fintype ProcessingMode :=
  ⟨⟨{.core4, .zeroFill, .similarityFill, .strict5}, by decide⟩, by intro x; cases x <;> decide⟩

open Modality ProcessingMode

/-- `self.modality_mapping` keys in insertion order: the ordered channel
assignment of the active mode. -/
def modalityMapping : ProcessingMode → List Modality
  | core4 => [ADC, DWI, T2fs, T2notfs]
  | zeroFill => [ADC, DWI, T2fs, T2notfs, gaoqingT2]
  | similarityFill => [ADC, DWI, T2fs, T2notfs, gaoqingT2]
  | strict5 => [ADC, DWI, T2fs, T2notfs, gaoqingT2]

/-- `self.zero_fill_missing`. -/
def zeroFillMissing : ProcessingMode → Bool
  | core4 => false
  | zeroFill => true
  | similarityFill => true
  | strict5 => false

/-- `self.similarity_fill`. -/
def similarityFillFlag : ProcessingMode → Bool
  | similarityFill => true
  | _ => false

/-- `self.min_modalities`. -/
def minModalities : ProcessingMode → ℕ
  | strict5 => 5
  | _ => 4

/-- The hard-coded core-modality set of `_validate_case_completeness`. -/
def coreModalities : List Modality := [ADC, DWI, T2fs, T2notfs]

/-- `_check_modalities_for_case`: the modalities of the active mapping whose
`.nii` file exists on disk, in mapping order (dict insertion order). -/
def checkModalitiesForCase (mode : ProcessingMode) (present : Modality → Bool) :
    List Modality :=
  (modalityMapping mode).filter present

/-- `_validate_case_completeness`: reject when the label file is missing;
under `strict_5` reject when any mapped modality is missing; otherwise
reject when fewer than 4 core modalities are available.  Returns the
accept flag together with the available-modality dictionary keys. -/
def validateCaseCompleteness (mode : ProcessingMode) (present : Modality → Bool)
    (hasLabel : Bool) : Bool × List Modality :=
  let modalities := checkModalitiesForCase mode present
  if ¬ hasLabel then (false, [])
  else if mode = strict5 then
    if (modalityMapping mode).filter (fun m => ¬ m ∈ modalities) ≠ [] then (false, [])
    else (true, modalities)
  else
    if (modalities.filter (fun m => m ∈ coreModalities)).length < 4 then (false, [])
    else (true, modalities)

/-! ## Shape reconciliation (`_adjust_shape`, `_resample_image`) -/

/-- One loop iteration of `_adjust_shape` for axis 0: `o1` is the extent
read from `current_shape` before the loop; crop with `slice(0, t1)` when
too long (in the shape/function representation a leading crop only shrinks
the recorded extent), or append zeros (`np.pad` with `(0, t1 - o1)`) when
too short. -/
def adjustAxis0 (o1 t1 : ℕ) (v : Vol) : Vol :=
  if o1 > t1 then ⟨(t1, v.shape.2.1, v.shape.2.2), v.data⟩
  else if o1 < t1 then
    ⟨(t1, v.shape.2.1, v.shape.2.2), fun i j k => if i < o1 then v.data i j k else 0⟩
  else v

/-- One loop iteration of `_adjust_shape` for axis 1. -/
def adjustAxis1 (o2 t2 : ℕ) (v : Vol) : Vol :=
  if o2 > t2 then ⟨(v.shape.1, t2, v.shape.2.2), v.data⟩
  else if o2 < t2 then
    ⟨(v.shape.1, t2, v.shape.2.2), fun i j k => if j < o2 then v.data i j k else 0⟩
  else v

/-- One loop iteration of `_adjust_shape` for axis 2. -/
def adjustAxis2 (o3 t3 : ℕ) (v : Vol) : Vol :=
  if o3 > t3 then ⟨(v.shape.1, v.shape.2.1, t3), v.data⟩
  else if o3 < t3 then
    ⟨(v.shape.1, v.shape.2.1, t3), fun i j k => if k < o3 then v.data i j k else 0⟩
  else v

/-- `_adjust_shape`: axis by axis, comparing against the shape read before
any adjustment (the script reads `current_shape = data.shape` once), crop
or zero-pad the accumulated volume. -/
def adjustShape (v : Vol) (t : Shape3) : Vol :=
  adjustAxis2 v.shape.2.2 t.2.2 (adjustAxis1 v.shape.2.1 t.2.1 (adjustAxis0 v.shape.1 t.1 v))

/-- Modelled from the spec: "any axis-wise rounding slack after
interpolation is corrected by center-aligned crop (if the resampled axis is
longer than target) or zero-padding (if shorter)".  A center-aligned crop
of an axis of extent `o` down to `t` keeps the window starting at
`(o - t) / 2` (axis 0 shown; too-short axes are zero-padded as in the
code, and the other axes are treated the same way). -/
def centerAlignedAxis0 (o1 t1 : ℕ) (v : Vol) : Vol :=
  if o1 > t1 then
    ⟨(t1, v.shape.2.1, v.shape.2.2), fun i j k => v.data (i + (o1 - t1) / 2) j k⟩
  else if o1 < t1 then
    ⟨(t1, v.shape.2.1, v.shape.2.2), fun i j k => if i < o1 then v.data i j k else 0⟩
  else v

/-- Modelled from the spec: the center-aligned correction on axis 1. -/
def centerAlignedAxis1 (o2 t2 : ℕ) (v : Vol) : Vol :=
  if o2 > t2 then
    ⟨(v.shape.1, t2, v.shape.2.2), fun i j k => v.data i (j + (o2 - t2) / 2) k⟩
  else if o2 < t2 then
    ⟨(v.shape.1, t2, v.shape.2.2), fun i j k => if j < o2 then v.data i j k else 0⟩
  else v

/-- Modelled from the spec: the center-aligned correction on axis 2. -/
def centerAlignedAxis2 (o3 t3 : ℕ) (v : Vol) : Vol :=
  if o3 > t3 then
    ⟨(v.shape.1, v.shape.2.1, t3), fun i j k => v.data i j (k + (o3 - t3) / 2)⟩
  else if o3 < t3 then
    ⟨(v.shape.1, v.shape.2.1, t3), fun i j k => if k < o3 then v.data i j k else 0⟩
  else v

/-- Modelled from the spec: the center-aligned slack correction — a
center-aligned crop on each too-long axis and zero-padding on each
too-short axis. -/
def centerAlignedAdjust (v : Vol) (t : Shape3) : Vol :=
  centerAlignedAxis2 v.shape.2.2 t.2.2
    (centerAlignedAxis1 v.shape.2.1 t.2.1 (centerAlignedAxis0 v.shape.1 t.1 v))

/-- The per-axis zoom factors `target_shape[i] / image_data.shape[i]`. -/
def zoomFactors (s t : Shape3) : ℚ × ℚ × ℚ :=
  ((t.1 : ℚ) / (s.1 : ℚ), (t.2.1 : ℚ) / (s.2.1 : ℚ), (t.2.2 : ℚ) / (s.2.2 : ℚ))

/-- An oracle standing for the external `scipy.ndimage.zoom(…, order=1,
mode='nearest')` call: `none` models the call raising. -/
abbrev ZoomOracle := Vol → ℚ × ℚ × ℚ → Option Vol

/-- `_resample_image`: return the volume unchanged when its shape already
matches the target; otherwise zoom by the per-axis factors (a raise is
caught and turned into `None`), then correct any remaining shape slack
with `_adjust_shape`. -/
def resampleImage (zf : ZoomOracle) (v : Vol) (t : Shape3) : Option Vol :=
  if v.shape = t then some v
  else
    match zf v (zoomFactors v.shape t) with
    | none => none
    | some r => some (if r.shape ≠ t then adjustShape r t else r)

/-! ## Channel synthesis (`_similarity_fill_gaoqing_t2`)

The stages are split into named definitions so that intermediate
quantities (in particular the renormalization denominator) can be spoken
about; `similarityFillGaoqingT2` chains them exactly as the script does. -/

/-- `np.clip` of a scalar: `min(max(x, lo), hi)`. -/
noncomputable def clipR (x lo hi : ℝ) : ℝ := min (max x lo) hi

/-- `np.clip` applied elementwise to a volume. -/
noncomputable def clipVol (v : Vol) (lo hi : ℝ) : Vol :=
  ⟨v.shape, fun i j k => clipR (v.data i j k) lo hi⟩

/-- scipy's `'reflect'` boundary: index `z` folded into `[0, n)` by the
reflection `(d c b a | a b c d | d c b a)`. -/
def reflectIdx (n : ℕ) (z : ℤ) : ℕ :=
  if n = 0 then 0
  else
    let r := z % (2 * (n : ℤ))
    if r < (n : ℤ) then r.toNat else (2 * (n : ℤ) - 1 - r).toNat

/-- The unnormalized Gaussian weight `exp(-x² / (2 σ²))` at `σ = 0.5`. -/
noncomputable def gaussWeight (x : ℤ) : ℝ := Real.exp (-(2 : ℝ) * (x : ℝ) ^ 2)

/-- The normalizer of the truncated Gaussian kernel; with `σ = 0.5` and the
default `truncate = 4.0` the kernel radius is `int(4.0·0.5 + 0.5) = 2`. -/
noncomputable def gaussNorm : ℝ := ∑ x ∈ Finset.Icc (-2 : ℤ) 2, gaussWeight x

/-- One normalized Gaussian kernel tap. -/
noncomputable def gkernel (x : ℤ) : ℝ := gaussWeight x / gaussNorm

/-- `gaussian_filter1d` along axis 0 with `'reflect'` boundaries. -/
noncomputable def gaussAxis0 (v : Vol) : Vol :=
  ⟨v.shape, fun i j k =>
    ∑ t ∈ Finset.Icc (-2 : ℤ) 2, gkernel t * v.data (reflectIdx v.shape.1 ((i : ℤ) + t)) j k⟩

/-- `gaussian_filter1d` along axis 1. -/
noncomputable def gaussAxis1 (v : Vol) : Vol :=
  ⟨v.shape, fun i j k =>
    ∑ t ∈ Finset.Icc (-2 : ℤ) 2, gkernel t * v.data i (reflectIdx v.shape.2.1 ((j : ℤ) + t)) k⟩

/-- `gaussian_filter1d` along axis 2. -/
noncomputable def gaussAxis2 (v : Vol) : Vol :=
  ⟨v.shape, fun i j k =>
    ∑ t ∈ Finset.Icc (-2 : ℤ) 2, gkernel t * v.data i j (reflectIdx v.shape.2.2 ((k : ℤ) + t))⟩

/-- `scipy.ndimage.gaussian_filter(…, sigma=0.5)`: the separable 1-D
filter applied along each axis in turn. -/
noncomputable def gaussianFilter (v : Vol) : Vol := gaussAxis2 (gaussAxis1 (gaussAxis0 v))

/-- numpy's default (`'linear'`) percentile of a value list: sort, take the
virtual index `q (n-1) / 100`, and interpolate linearly between its two
neighbouring order statistics. -/
noncomputable def percentileList (xs : List ℝ) (q : ℚ) : ℝ :=
  let sorted := xs.mergeSort (fun a b => decide (a ≤ b))
  let pos : ℚ := q * ((xs.length : ℚ) - 1) / 100
  let lo := sorted.getD pos.floor.toNat 0
  let hi := sorted.getD pos.ceil.toNat 0
  lo + ((pos : ℝ) - ((pos.floor : ℤ) : ℝ)) * (hi - lo)

/-- Step 1: `base_estimate = 0.6 * t2_fs + 0.4 * t2_not_fs`. -/
noncomputable def sfBase (a b : Vol) : Vol :=
  ⟨a.shape, fun i j k => 0.6 * a.data i j k + 0.4 * b.data i j k⟩

/-- Step 2: unsharp mask `enhanced = base + 0.3 * (base - gaussian(base))`
(before the percentile clip). -/
noncomputable def sfEnhancedRaw (a b : Vol) : Vol :=
  let base := sfBase a b
  let smoothed := gaussianFilter base
  ⟨base.shape, fun i j k =>
    base.data i j k + 0.3 * (base.data i j k - smoothed.data i j k)⟩

/-- The 1st percentile of the raw enhanced volume. -/
noncomputable def sfP1 (a b : Vol) : ℝ := percentileList (sfEnhancedRaw a b).valuesList 1

/-- The 99th percentile of the raw enhanced volume. -/
noncomputable def sfP99 (a b : Vol) : ℝ := percentileList (sfEnhancedRaw a b).valuesList 99

/-- Step 3: `enhanced` clipped to its own 1st/99th percentile range. -/
noncomputable def sfEnhanced (a b : Vol) : Vol :=
  clipVol (sfEnhancedRaw a b) (sfP1 a b) (sfP99 a b)

/-- `original_min = min(t2_fs.min(), t2_not_fs.min())`. -/
noncomputable def sfOriginalMin (a b : Vol) : ℝ := min a.vmin b.vmin

/-- `original_max = max(t2_fs.max(), t2_not_fs.max())`. -/
noncomputable def sfOriginalMax (a b : Vol) : ℝ := max a.vmax b.vmax

/-- The intensity-renormalization denominator
`enhanced.max() - enhanced.min()` of step 4 — the script divides by it with
no zero guard. -/
noncomputable def sfDenom (a b : Vol) : ℝ := (sfEnhanced a b).vmax - (sfEnhanced a b).vmin

/-- Step 4: rescale `enhanced` into the source intensity envelope. -/
noncomputable def sfNormalized (a b : Vol) : Vol :=
  let e := sfEnhanced a b
  ⟨e.shape, fun i j k =>
    (e.data i j k - e.vmin) / sfDenom a b * (sfOriginalMax a b - sfOriginalMin a b)
      + sfOriginalMin a b⟩

/-- The fixed 3×3 texture-sharpening kernel (center `1.4`, edge `-0.1`,
corner `-0.05`), indexed by offsets in `[-1, 1]²`. -/
noncomputable def textureKernel (u v : ℤ) : ℝ :=
  if u = 0 ∧ v = 0 then 1.4
  else if u = 0 ∨ v = 0 then -0.1
  else -0.05

/-- Step 5: `ndimage.convolve(…, texture_kernel, mode='reflect')` applied
to every axis-2 slice. -/
noncomputable def sfTextured (a b : Vol) : Vol :=
  let n := sfNormalized a b
  ⟨n.shape, fun i j k =>
    ∑ u ∈ Finset.Icc (-1 : ℤ) 1, ∑ v ∈ Finset.Icc (-1 : ℤ) 1,
      textureKernel u v *
        n.data (reflectIdx n.shape.1 ((i : ℤ) + u)) (reflectIdx n.shape.2.1 ((j : ℤ) + v)) k⟩

/-- `_similarity_fill_gaoqing_t2`: steps 1-6 — the final result is
`0.8 * normalized + 0.2 * textured` clipped back into the source
intensity envelope. -/
noncomputable def similarityFillGaoqingT2 (a b : Vol) : Vol :=
  let n := sfNormalized a b
  let t := sfTextured a b
  clipVol ⟨n.shape, fun i j k => 0.8 * n.data i j k + 0.2 * t.data i j k⟩
    (sfOriginalMin a b) (sfOriginalMax a b)

/-! ## Channel assembly (`_combine_modalities`) and the per-case record

File reads are an oracle `load : Modality → Option Vol` (`none` models
`nib.load`/`get_fdata` raising); the environment is deterministic, so the
two reads of the reference file see the same volume.  The multi-channel
array `combined_data` of shape `(*ref_shape, num_channels)` is modelled as
the list of its channel slices `combined_data[..., i]`. -/

/-- An oracle standing for `nib.load(path).get_fdata()` on one modality's
file: `none` models the read raising. -/
abbrev LoadOracle := Modality → Option Vol

/-- The loop state of `_combine_modalities`: the channel slices of
`combined_data`, `valid_channels`, and `missing_modalities`. -/
structure CombineSt where
  channels : List Vol
  validChannels : ℕ
  missing : List Modality

/-- The body of the per-modality loop of `_combine_modalities` for channel
index `i` and modality `m`. -/
noncomputable def stepModality (mode : ProcessingMode) (zf : ZoomOracle) (load : LoadOracle)
    (avail : List Modality) (refShape : Shape3) (i : ℕ) (m : Modality)
    (st : CombineSt) : CombineSt :=
  if m ∈ avail then
    match load m with
    | some data =>
      if data.shape ≠ refShape then
        match resampleImage zf data refShape with
        | some r =>
          ⟨st.channels.set i r, st.validChannels + 1, st.missing⟩
        | none =>
          if zeroFillMissing mode then
            ⟨st.channels.set i (zeroVol refShape), st.validChannels + 1, st.missing ++ [m]⟩
          else st
      else ⟨st.channels.set i data, st.validChannels + 1, st.missing⟩
    | none =>
      if zeroFillMissing mode then
        ⟨st.channels.set i (zeroVol refShape), st.validChannels + 1, st.missing ++ [m]⟩
      else st
  else
    if zeroFillMissing mode then
      if similarityFillFlag mode ∧ m = gaoqingT2 then
        if T2fs ∈ avail ∧ T2notfs ∈ avail then
          match load T2fs, load T2notfs with
          | some a, some b =>
            match (if a.shape ≠ refShape then resampleImage zf a refShape else some a),
                  (if b.shape ≠ refShape then resampleImage zf b refShape else some b) with
            | some a2, some b2 =>
              ⟨st.channels.set i (similarityFillGaoqingT2 a2 b2), st.validChannels + 1,
                st.missing⟩
            | _, _ =>
              ⟨st.channels.set i (zeroVol refShape), st.validChannels + 1, st.missing ++ [m]⟩
          | _, _ =>
            ⟨st.channels.set i (zeroVol refShape), st.validChannels + 1, st.missing ++ [m]⟩
        else ⟨st.channels.set i (zeroVol refShape), st.validChannels + 1, st.missing ++ [m]⟩
      else ⟨st.channels.set i (zeroVol refShape), st.validChannels + 1, st.missing ++ [m]⟩
    else st

/-- The per-modality loop of `_combine_modalities`, run from channel index
`i` over the remaining target modalities. -/
noncomputable def processList (mode : ProcessingMode) (zf : ZoomOracle) (load : LoadOracle)
    (avail : List Modality) (refShape : Shape3) :
    ℕ → List Modality → CombineSt → CombineSt
  | _, [], st => st
  | i, m :: ms, st =>
    processList mode zf load avail refShape (i + 1) ms
      (stepModality mode zf load avail refShape i m st)

/-- The outcome of `_combine_modalities`: the channel slices of the saved
multi-channel image, the zero-fill audit list, and the reference shape. -/
structure CombineResult where
  channels : List Vol
  missing : List Modality
  refShape : Shape3

/-- `_combine_modalities`: pick the target modalities (all mapped ones in
fill modes, only the available ones otherwise), load the first available
one as the geometric reference, fill `combined_data` channel by channel,
and in non-fill modes truncate the channel axis to `valid_channels` when
some channel was skipped.  `Except.error` models the `ValueError`s and the
uncaught reference-load failure that reject the case in `convert`. -/
noncomputable def combineModalities (mode : ProcessingMode) (zf : ZoomOracle)
    (load : LoadOracle) (avail : List Modality) : Except String CombineResult :=
  let targetModalities :=
    if zeroFillMissing mode then modalityMapping mode
    else (modalityMapping mode).filter (fun m => m ∈ avail)
  let numChannels := targetModalities.length
  if targetModalities = [] then .error "no modality data"
  else
    match targetModalities.find? (fun m => m ∈ avail) with
    | none => .error "no reference modality"
    | some refM =>
      match load refM with
      | none => .error "reference load raised"
      | some refImg =>
        let refShape := refImg.shape
        let st := processList mode zf load avail refShape 0 targetModalities
          ⟨List.replicate numChannels (zeroVol refShape), 0, []⟩
        if st.validChannels = 0 then .error "no valid modality data"
        else
          let channels :=
            if ¬ zeroFillMissing mode ∧ st.validChannels < numChannels then
              st.channels.take st.validChannels
            else st.channels
          .ok ⟨channels, st.missing, refShape⟩

/-- The per-case entry `convert` appends to `processed_cases` (the dataset
descriptor record): its `'modalities'` field is `list(modalities.keys())`,
the available-on-disk modality dictionary of the validator. -/
structure CaseRecord where
  modalities : List Modality
  hadLabel : Bool

/-- One iteration of `convert`'s per-case loop: validate, combine, process
the label, and append the record; `none` models the case being skipped. -/
noncomputable def processCase (mode : ProcessingMode) (zf : ZoomOracle) (load : LoadOracle)
    (present : Modality → Bool) (hasLabel : Bool) : Option CaseRecord :=
  let v := validateCaseCompleteness mode present hasLabel
  if v.1 then
    match combineModalities mode zf load v.2 with
    | .ok _ => some ⟨v.2, hasLabel⟩
    | .error _ => none
  else none

/-- The value the loop writes into channel `i` for modality `m` whenever it
does write (in fill modes: always): the loaded volume, its reconciled
version, the synthesized channel, or a zero fill. -/
noncomputable def channelValue (mode : ProcessingMode) (zf : ZoomOracle) (load : LoadOracle)
    (avail : List Modality) (refShape : Shape3) (m : Modality) : Vol :=
  if m ∈ avail then
    match load m with
    | some data =>
      if data.shape ≠ refShape then
        match resampleImage zf data refShape with
        | some r => r
        | none => zeroVol refShape
      else data
    | none => zeroVol refShape
  else
    if similarityFillFlag mode ∧ m = gaoqingT2 then
      if T2fs ∈ avail ∧ T2notfs ∈ avail then
        match load T2fs, load T2notfs with
        | some a, some b =>
          match (if a.shape ≠ refShape then resampleImage zf a refShape else some a),
                (if b.shape ≠ refShape then resampleImage zf b refShape else some b) with
          | some a2, some b2 => similarityFillGaoqingT2 a2 b2
          | _, _ => zeroVol refShape
        | _, _ => zeroVol refShape
      else zeroVol refShape
    else zeroVol refShape

/-! ## Claim C1: the completeness validator -/

/-- C1: for every case and active ProcessingMode, the completeness
validator rejects the case if no label volume exists; under `strict_5` it
rejects unless every modality in the mapping is present; under every other
mode it accepts if and only if all 4 core modalities are present. -/
theorem validator_accepts_iff (mode : ProcessingMode) (present : Modality → Bool)
    (hasLabel : Bool) :
    (validateCaseCompleteness mode present hasLabel).1 = true ↔
      (hasLabel = true ∧
        ((mode = strict5 ∧ ∀ m ∈ modalityMapping strict5, present m = true) ∨
         (mode ≠ strict5 ∧ ∀ m ∈ coreModalities, present m = true))) := by
  cases mode <;> cases hasLabel <;> (revert present; decide)

/-! ## Claim C8: reconciling a volume to its own shape is the identity -/

/-- C8: `_resample_image(v, v.shape)` returns the volume unchanged — the
shape-equality早 guard fires before any zoom, crop or pad. -/
theorem resample_self_identity (zf : ZoomOracle) (v : Vol) (t : Shape3)
    (h : v.shape = t) : resampleImage zf v t = some v := by
  simp [resampleImage, h]

/-- Witness for C8 at a concrete volume and its own shape. -/
theorem resample_self_identity_witness :
    (zeroVol (3, 4, 5)).shape = (3, 4, 5) ∧
      resampleImage (fun _ _ => none) (zeroVol (3, 4, 5)) (3, 4, 5) =
        some (zeroVol (3, 4, 5)) :=
  ⟨rfl, resample_self_identity (fun _ _ => none) (zeroVol (3, 4, 5)) (3, 4, 5) rfl⟩

/-! ## Claim C7: the shape-slack correction -/

/-- A concrete post-interpolation volume: extent 4 on axis 0, voxel value
equal to the axis-0 index. -/
def c7Vol : Vol := ⟨(4, 1, 1), fun i _ _ => (i : ℝ)⟩

lemma adjustAxis0_spec (o1 t1 : ℕ) (v : Vol) (h : v.shape.1 = o1) :
    (adjustAxis0 o1 t1 v).shape = (t1, v.shape.2.1, v.shape.2.2) ∧
      ∀ i j k, i < t1 →
        (adjustAxis0 o1 t1 v).data i j k = if i < o1 then v.data i j k else 0 := by
  unfold adjustAxis0
  split_ifs with h1 h2
  · exact ⟨rfl, fun i j k hi => (if_pos (by omega)).symm⟩
  · exact ⟨rfl, fun i j k _ => rfl⟩
  · refine ⟨?_, fun i j k hi => (if_pos (by omega)).symm⟩
    have ht : v.shape.1 = t1 := by omega
    exact Prod.ext ht rfl

lemma adjustAxis1_spec (o2 t2 : ℕ) (v : Vol) (h : v.shape.2.1 = o2) :
    (adjustAxis1 o2 t2 v).shape = (v.shape.1, t2, v.shape.2.2) ∧
      ∀ i j k, j < t2 →
        (adjustAxis1 o2 t2 v).data i j k = if j < o2 then v.data i j k else 0 := by
  unfold adjustAxis1
  split_ifs with h1 h2
  · exact ⟨rfl, fun i j k hj => (if_pos (by omega)).symm⟩
  · exact ⟨rfl, fun i j k _ => rfl⟩
  · refine ⟨?_, fun i j k hj => (if_pos (by omega)).symm⟩
    have ht : v.shape.2.1 = t2 := by omega
    exact Prod.ext rfl (Prod.ext ht rfl)

lemma adjustAxis2_spec (o3 t3 : ℕ) (v : Vol) (h : v.shape.2.2 = o3) :
    (adjustAxis2 o3 t3 v).shape = (v.shape.1, v.shape.2.1, t3) ∧
      ∀ i j k, k < t3 →
        (adjustAxis2 o3 t3 v).data i j k = if k < o3 then v.data i j k else 0 := by
  unfold adjustAxis2
  split_ifs with h1 h2
  · exact ⟨rfl, fun i j k hk => (if_pos (by omega)).symm⟩
  · exact ⟨rfl, fun i j k _ => rfl⟩
  · refine ⟨?_, fun i j k hk => (if_pos (by omega)).symm⟩
    have ht : v.shape.2.2 = t3 := by omega
    exact Prod.ext rfl (Prod.ext rfl ht)

/-- C7 counterexample: the crop of `_adjust_shape` is start-aligned
(`slice(0, target)`), not center-aligned.  Cropping `[0,1,2,3]` to length
2 keeps `[0,1]`, while a center-aligned crop keeps `[1,2]`; they already
differ at in-shape position `(1,0,0)`. -/
theorem adjust_shape_not_center_aligned :
    ¬ ∀ (v : Vol) (t : Shape3),
        (adjustShape v t).shape = t ∧
          sameContent (adjustShape v t) (centerAlignedAdjust v t) := by
  intro h
  obtain ⟨-, -, hd⟩ := h c7Vol (2, 1, 1)
  have h2 := hd 1 0 0
    (by norm_num [adjustShape, adjustAxis0, adjustAxis1, adjustAxis2, c7Vol])
    (by norm_num [adjustShape, adjustAxis0, adjustAxis1, adjustAxis2, c7Vol])
    (by norm_num [adjustShape, adjustAxis0, adjustAxis1, adjustAxis2, c7Vol])
  norm_num [adjustShape, adjustAxis0, adjustAxis1, adjustAxis2, centerAlignedAdjust,
    centerAlignedAxis0, centerAlignedAxis1, centerAlignedAxis2, c7Vol] at h2

/-- C7 amended: each too-long axis is corrected by a start-aligned crop
(keeping the leading `target` entries), each too-short axis by trailing
zero-padding, with no second interpolation — every corrected voxel is
either the source voxel at the same position or zero — and the corrected
volume's shape equals the target shape. -/
theorem adjust_shape_start_aligned (v : Vol) (t : Shape3) :
    (adjustShape v t).shape = t ∧
      ∀ i j k, i < t.1 → j < t.2.1 → k < t.2.2 →
        (adjustShape v t).data i j k =
          if i < v.shape.1 ∧ j < v.shape.2.1 ∧ k < v.shape.2.2 then v.data i j k
          else 0 := by
  have h0 := adjustAxis0_spec v.shape.1 t.1 v rfl
  have h1 := adjustAxis1_spec v.shape.2.1 t.2.1 (adjustAxis0 v.shape.1 t.1 v)
    (by rw [h0.1])
  have h2 := adjustAxis2_spec v.shape.2.2 t.2.2
    (adjustAxis1 v.shape.2.1 t.2.1 (adjustAxis0 v.shape.1 t.1 v))
    (by rw [h1.1, h0.1])
  constructor
  · show (adjustAxis2 _ _ _).shape = t
    rw [h2.1, h1.1, h0.1]
  · intro i j k hi hj hk
    show (adjustAxis2 _ _ _).data i j k = _
    rw [h2.2 i j k hk, h1.2 i j k hj, h0.2 i j k hi]
    by_cases hio : i < v.shape.1 <;> by_cases hjo : j < v.shape.2.1 <;>
      by_cases hko : k < v.shape.2.2 <;> simp [hio, hjo, hko]

/-- Witness for C7's amended theorem at the concrete crop example. -/
theorem adjust_shape_start_aligned_witness :
    (1 < 2 ∧ 0 < 1 ∧ 0 < 1) ∧
      ((adjustShape c7Vol (2, 1, 1)).shape = (2, 1, 1) ∧
        (adjustShape c7Vol (2, 1, 1)).data 1 0 0 =
          if 1 < c7Vol.shape.1 ∧ 0 < c7Vol.shape.2.1 ∧ 0 < c7Vol.shape.2.2 then
            c7Vol.data 1 0 0
          else 0) :=
  ⟨by norm_num,
    ⟨(adjust_shape_start_aligned c7Vol (2, 1, 1)).1,
      (adjust_shape_start_aligned c7Vol (2, 1, 1)).2 1 0 0 (by norm_num) (by norm_num)
        (by norm_num)⟩⟩

/-! ## Loop lemmas for `_combine_modalities` -/

section CombineLemmas

variable (mode : ProcessingMode) (zf : ZoomOracle) (load : LoadOracle)
  (avail : List Modality) (rs : Shape3)

lemma stepModality_channels_cases (i : ℕ) (m : Modality) (st : CombineSt) :
    (stepModality mode zf load avail rs i m st).channels = st.channels ∨
      ∃ w, (stepModality mode zf load avail rs i m st).channels = st.channels.set i w := by
  unfold stepModality
  repeat' split
  all_goals first
    | exact Or.inl rfl
    | exact Or.inr ⟨_, rfl⟩

lemma stepModality_channels_length (i : ℕ) (m : Modality) (st : CombineSt) :
    (stepModality mode zf load avail rs i m st).channels.length = st.channels.length := by
  rcases stepModality_channels_cases mode zf load avail rs i m st with h | ⟨w, h⟩ <;>
    simp [h]

lemma processList_length :
    ∀ (ms : List Modality) (i : ℕ) (st : CombineSt),
      (processList mode zf load avail rs i ms st).channels.length
        = st.channels.length := by
  intro ms
  induction ms with
  | nil => intro i st; rfl
  | cons m ms ih =>
    intro i st
    rw [processList, ih, stepModality_channels_length]

lemma processList_stable :
    ∀ (ms : List Modality) (i : ℕ) (st : CombineSt) (j : ℕ), j < i →
      (processList mode zf load avail rs i ms st).channels[j]? = st.channels[j]? := by
  intro ms
  induction ms with
  | nil => intro i st j _; rfl
  | cons m ms ih =>
    intro i st j hj
    rw [processList, ih (i + 1) _ j (by omega)]
    rcases stepModality_channels_cases mode zf load avail rs i m st with h | ⟨w, h⟩
    · rw [h]
    · rw [h, List.getElem?_set_ne (by omega)]

/-- When every step of the remaining loop writes `g m` into its own channel
index and counts it valid, the loop fills channel `i + j` with `g`
applied to the `j`-th remaining modality. -/
lemma processList_writes (g : Modality → Vol) :
    ∀ (ms : List Modality),
      (∀ m ∈ ms, ∀ (i' : ℕ) (st' : CombineSt),
        (stepModality mode zf load avail rs i' m st').channels
            = st'.channels.set i' (g m) ∧
          (stepModality mode zf load avail rs i' m st').validChannels
            = st'.validChannels + 1) →
      ∀ (i : ℕ) (st : CombineSt), i + ms.length ≤ st.channels.length →
        (processList mode zf load avail rs i ms st).validChannels
            = st.validChannels + ms.length ∧
          ∀ j (hj : j < ms.length),
            (processList mode zf load avail rs i ms st).channels[i + j]? =
              some (g (ms.get ⟨j, hj⟩)) := by
  intro ms
  induction ms with
  | nil =>
    intro _ i st _
    exact ⟨rfl, fun j hj => absurd hj (by simp)⟩
  | cons m ms ih =>
    intro hsteps i st hlen
    simp only [List.length_cons] at hlen
    have hm := hsteps m (List.mem_cons_self m ms) i st
    have hlen' : (stepModality mode zf load avail rs i m st).channels.length
        = st.channels.length := stepModality_channels_length mode zf load avail rs i m st
    have hrec := ih (fun m' hm' => hsteps m' (List.mem_cons_of_mem m hm'))
      (i + 1) (stepModality mode zf load avail rs i m st)
      (by rw [hlen']; omega)
    constructor
    · rw [processList, hrec.1, hm.2]
      simp only [List.length_cons]
      omega
    · intro j hj
      cases j with
      | zero =>
        rw [processList,
          processList_stable mode zf load avail rs ms (i + 1) _ (i + 0) (by omega)]
        rw [hm.1]
        have hi : i < st.channels.length := by omega
        simpa using List.getElem?_set_eq_of_lt (g m) hi
      | succ j' =>
        have hj' : j' < ms.length := by
          simp only [List.length_cons] at hj; omega
        have hstep := hrec.2 j' hj'
        have hidx : i + (j' + 1) = (i + 1) + j' := by omega
        rw [processList, hidx]
        simpa using hstep

/-- A step on an available modality whose load succeeds with a volume of
the reference shape writes that volume, in every mode. -/
lemma stepModality_allok {m : Modality} (hm : m ∈ avail) {w : Vol}
    (hl : load m = some w) (hs : w.shape = rs) (i : ℕ) (st : CombineSt) :
    (stepModality mode zf load avail rs i m st).channels = st.channels.set i w ∧
      (stepModality mode zf load avail rs i m st).validChannels
        = st.validChannels + 1 := by
  unfold stepModality
  simp [hm, hl, hs]

/-- In a fill mode every step writes `channelValue` of its modality into
its own channel and counts it valid. -/
lemma stepModality_fill (hfill : zeroFillMissing mode = true) (i : ℕ) (m : Modality)
    (st : CombineSt) :
    (stepModality mode zf load avail rs i m st).channels
        = st.channels.set i (channelValue mode zf load avail rs m) ∧
      (stepModality mode zf load avail rs i m st).validChannels
        = st.validChannels + 1 := by
  unfold stepModality channelValue
  repeat' split
  all_goals simp_all

lemma modalityMapping_ne_nil : modalityMapping mode ≠ [] := by
  cases mode <;> simp [modalityMapping]

lemma modalityMapping_find_ADC (hADC : ADC ∈ avail) :
    (modalityMapping mode).find? (fun m => m ∈ avail) = some ADC := by
  cases mode <;> simp [modalityMapping, List.find?, hADC]

end CombineLemmas

/-- In a fill mode, a successful `_combine_modalities` emits one channel
per mapped modality, and channel `j` holds the loop's value for the `j`-th
mapped modality. -/
lemma combineModalities_fill_spec {mode : ProcessingMode} {zf : ZoomOracle}
    {load : LoadOracle} {avail : List Modality} (hfill : zeroFillMissing mode = true)
    {r : CombineResult} (h : combineModalities mode zf load avail = .ok r) :
    r.channels.length = (modalityMapping mode).length ∧
      ∀ j (hj : j < (modalityMapping mode).length),
        r.channels[j]? = some (channelValue mode zf load avail r.refShape
          ((modalityMapping mode).get ⟨j, hj⟩)) := by
  unfold combineModalities at h
  simp only [hfill, ite_true, modalityMapping_ne_nil, if_neg, not_true, false_and,
    ite_false] at h
  cases hfind : (modalityMapping mode).find? (fun m => m ∈ avail) with
  | none => rw [hfind] at h; simp at h
  | some refM =>
    rw [hfind] at h
    dsimp only at h
    cases hload : load refM with
    | none => rw [hload] at h; simp at h
    | some refImg =>
      rw [hload] at h
      dsimp only at h
      have hw := processList_writes mode zf load avail refImg.shape
        (channelValue mode zf load avail refImg.shape) (modalityMapping mode)
        (fun m _ i' st' => stepModality_fill mode zf load avail refImg.shape hfill i' m st')
        0 ⟨List.replicate (modalityMapping mode).length (zeroVol refImg.shape), 0, []⟩
        (by simp)
      have hlen := processList_length mode zf load avail refImg.shape
        (modalityMapping mode) 0
        ⟨List.replicate (modalityMapping mode).length (zeroVol refImg.shape), 0, []⟩
      have hvalid0 : (processList mode zf load avail refImg.shape 0 (modalityMapping mode)
          ⟨List.replicate (modalityMapping mode).length (zeroVol refImg.shape), 0, []⟩
            ).validChannels ≠ 0 := by
        rw [hw.1]
        have := List.length_pos.mpr (modalityMapping_ne_nil mode)
        omega
      rw [if_neg hvalid0] at h
      cases h
      refine ⟨by simpa using hlen, fun j hj => ?_⟩
      simpa using hw.2 j hj

/-- In a fill mode with the first mapped modality available and readable,
`_combine_modalities` succeeds, with the reference shape taken from that
volume. -/
lemma combineModalities_fill_ok {mode : ProcessingMode} {zf : ZoomOracle}
    {load : LoadOracle} {avail : List Modality} (hfill : zeroFillMissing mode = true)
    (hADC : ADC ∈ avail) {w : Vol} (hw : load ADC = some w) :
    ∃ r, combineModalities mode zf load avail = .ok r ∧ r.refShape = w.shape := by
  unfold combineModalities
  simp only [hfill, ite_true, not_true, false_and, ite_false]
  rw [if_neg (by simpa using modalityMapping_ne_nil mode),
    modalityMapping_find_ADC mode avail hADC]
  dsimp only
  rw [hw]
  dsimp only
  have hws := processList_writes mode zf load avail w.shape
    (channelValue mode zf load avail w.shape) (modalityMapping mode)
    (fun m _ i' st' => stepModality_fill mode zf load avail w.shape hfill i' m st')
    0 ⟨List.replicate (modalityMapping mode).length (zeroVol w.shape), 0, []⟩
    (by simp)
  have hvalid0 : (processList mode zf load avail w.shape 0 (modalityMapping mode)
      ⟨List.replicate (modalityMapping mode).length (zeroVol w.shape), 0, []⟩
        ).validChannels ≠ 0 := by
    rw [hws.1]
    have := List.length_pos.mpr (modalityMapping_ne_nil mode)
    omega
  rw [if_neg hvalid0]
  exact ⟨_, rfl, rfl⟩

/-! ## Claim C2: assembly with all modalities present and one shape -/

/-- C2: when every modality of the active mapping is present, every load
succeeds, and all volumes share one shape, `_combine_modalities` succeeds,
the channel count equals the number of mapping entries, and channel `j` is
exactly the `j`-th mapped modality's source volume. -/
theorem assemble_all_present (mode : ProcessingMode) (zf : ZoomOracle)
    (load : LoadOracle) (avail : List Modality) (vols : Modality → Vol) (s : Shape3)
    (havail : ∀ m ∈ modalityMapping mode, m ∈ avail)
    (hload : ∀ m ∈ modalityMapping mode, load m = some (vols m))
    (hshape : ∀ m ∈ modalityMapping mode, (vols m).shape = s) :
    ∃ r, combineModalities mode zf load avail = .ok r ∧
      r.channels.length = (modalityMapping mode).length ∧
      ∀ j (hj : j < (modalityMapping mode).length),
        r.channels[j]? = some (vols ((modalityMapping mode).get ⟨j, hj⟩)) := by
  have hADCmem : ADC ∈ modalityMapping mode := by
    cases mode <;> simp [modalityMapping]
  have htarget :
      (if zeroFillMissing mode then modalityMapping mode
        else (modalityMapping mode).filter (fun m => m ∈ avail)) = modalityMapping mode := by
    cases hz : zeroFillMissing mode
    · simp only [hz, Bool.false_eq_true, if_false]
      apply List.filter_eq_self.mpr
      intro a ha
      simpa using havail a ha
    · simp [hz]
  unfold combineModalities
  rw [htarget]
  rw [if_neg (by simpa using modalityMapping_ne_nil mode),
    modalityMapping_find_ADC mode avail (havail ADC hADCmem)]
  dsimp only
  rw [hload ADC hADCmem]
  dsimp only
  have hrs : (vols ADC).shape = s := hshape ADC hADCmem
  have hws := processList_writes mode zf load avail (vols ADC).shape vols
    (modalityMapping mode)
    (fun m hm i' st' => stepModality_allok mode zf load avail (vols ADC).shape
      (havail m hm) (hload m hm) (by rw [hshape m hm, hrs]) i' st')
    0 ⟨List.replicate (modalityMapping mode).length (zeroVol (vols ADC).shape), 0, []⟩
    (by simp)
  have hlenst := processList_length mode zf load avail (vols ADC).shape
    (modalityMapping mode) 0
    ⟨List.replicate (modalityMapping mode).length (zeroVol (vols ADC).shape), 0, []⟩
  have hvalid : (processList mode zf load avail (vols ADC).shape 0 (modalityMapping mode)
      ⟨List.replicate (modalityMapping mode).length (zeroVol (vols ADC).shape), 0, []⟩
        ).validChannels = (modalityMapping mode).length := by
    simpa using hws.1
  rw [if_neg (by rw [hvalid]; simpa using modalityMapping_ne_nil mode)]
  rw [if_neg (by rw [hvalid]; simp)]
  exact ⟨_, rfl, by simpa using hlenst, fun j hj => by simpa using hws.2 j hj⟩

/-! ## Concrete environments for witnesses and counterexamples -/

/-- A concrete ADC volume of shape `(1,1,1)`. -/
def cexVolADC : Vol := constVol (1, 1, 1) 1

/-- A concrete DWI volume whose shape disagrees with the reference. -/
def cexVolDWIbad : Vol := constVol (2, 1, 1) 7

/-- A concrete DWI volume of the reference shape. -/
def cexVolDWI : Vol := constVol (1, 1, 1) 2

/-- A concrete `T2 fs` volume. -/
def cexVolT2fs : Vol := constVol (1, 1, 1) 3

/-- A concrete `T2 not fs` volume. -/
def cexVolT2notfs : Vol := constVol (1, 1, 1) 4

/-- A zoom oracle that always raises. -/
def cexZoom : ZoomOracle := fun _ _ => none

/-- The four core modalities on disk, `gaoqing-T2` missing. -/
def cexAvail : List Modality := [ADC, DWI, T2fs, T2notfs]

/-- The presence function matching `cexAvail`. -/
def cexPresent : Modality → Bool
  | gaoqingT2 => false
  | _ => true

/-- Loads for the skip counterexample: the DWI file holds a volume of a
mismatched shape, everything else matches the reference. -/
def cexLoadSkip : LoadOracle
  | ADC => some cexVolADC
  | DWI => some cexVolDWIbad
  | T2fs => some cexVolT2fs
  | T2notfs => some cexVolT2notfs
  | gaoqingT2 => none

/-- Loads with all four core volumes readable and of one shape. -/
def cexLoadOk : LoadOracle
  | ADC => some cexVolADC
  | DWI => some cexVolDWI
  | T2fs => some cexVolT2fs
  | T2notfs => some cexVolT2notfs
  | gaoqingT2 => none

/-! ## Claim C3: the channel-to-modality binding -/

/-- The binding C3 claims on every code path: a successful assembly emits
one channel per mapped modality, and channel `j` holds the loop's value
(real, reconciled, synthesized, or zero-filled) for the `j`-th mapped
modality. -/
def channelBindingEveryPath : Prop :=
  ∀ (mode : ProcessingMode) (zf : ZoomOracle) (load : LoadOracle)
    (avail : List Modality) (r : CombineResult),
    combineModalities mode zf load avail = .ok r →
      r.channels.length = (modalityMapping mode).length ∧
      ∀ j (hj : j < (modalityMapping mode).length),
        r.channels[j]? = some (channelValue mode zf load avail r.refShape
          ((modalityMapping mode).get ⟨j, hj⟩))

/-- C3 counterexample: under `core_4` with all four core modalities on
disk but the DWI volume failing reconciliation, the loop skips DWI and the
final `combined_data[..., :valid_channels]` truncates the channel axis at
the tail: only 3 channels are emitted for the 4 mapped modalities (DWI's
slot stays zero in place and the valid trailing `T2 not fs` channel is
dropped), so the claimed binding fails. -/
theorem channel_binding_fails_on_skip : ¬ channelBindingEveryPath := by
  intro h
  have h2 := (h core4 cexZoom cexLoadSkip cexAvail
    ⟨[cexVolADC, zeroVol (1, 1, 1), cexVolT2fs], [], (1, 1, 1)⟩ rfl).1
  simp [modalityMapping] at h2

/-- C3 amended: in the fill modes (`zero_fill`, `similarity_fill`) the
binding holds — every successful assembly emits exactly one channel per
mapped modality and channel `j` carries the value produced for the `j`-th
mapped modality; in the non-fill modes it can fail once a present modality
is skipped, because the truncation cuts the tail of the channel axis
rather than the skipped slot. -/
theorem channel_binding_fill_modes (mode : ProcessingMode) (zf : ZoomOracle)
    (load : LoadOracle) (avail : List Modality) (hfill : zeroFillMissing mode = true)
    (r : CombineResult) (h : combineModalities mode zf load avail = .ok r) :
    r.channels.length = (modalityMapping mode).length ∧
      ∀ j (hj : j < (modalityMapping mode).length),
        r.channels[j]? = some (channelValue mode zf load avail r.refShape
          ((modalityMapping mode).get ⟨j, hj⟩)) :=
  combineModalities_fill_spec hfill h

/-- The assembly result of the fill-mode witness environment. -/
def c3FillResult : CombineResult :=
  ⟨[cexVolADC, cexVolDWI, cexVolT2fs, cexVolT2notfs, zeroVol (1, 1, 1)],
    [gaoqingT2], (1, 1, 1)⟩

/-- Witness for C3's amended theorem: a concrete `zero_fill` run with the
optional modality missing. -/
theorem channel_binding_fill_modes_witness :
    (zeroFillMissing zeroFill = true ∧
      combineModalities zeroFill cexZoom cexLoadOk cexAvail = .ok c3FillResult) ∧
      (c3FillResult.channels.length = (modalityMapping zeroFill).length ∧
        ∀ j (hj : j < (modalityMapping zeroFill).length),
          c3FillResult.channels[j]? = some (channelValue zeroFill cexZoom cexLoadOk cexAvail
            c3FillResult.refShape ((modalityMapping zeroFill).get ⟨j, hj⟩))) :=
  ⟨⟨rfl, rfl⟩,
    channel_binding_fill_modes zeroFill cexZoom cexLoadOk cexAvail rfl c3FillResult rfl⟩

/-! ## Claim C4: the case record's modality list -/

/-- A consequence of C4's claim: when the case was accepted with the
optional modality absent on disk under the similarity mode, and the
emitted fused volume's last channel is the synthesizer's output (a
synthesized contribution), the record's modality list contains the
synthesized modality. -/
def recordListsSynthesized : Prop :=
  ∀ (mode : ProcessingMode) (zf : ZoomOracle) (load : LoadOracle)
    (present : Modality → Bool) (hasLabel : Bool) (rec : CaseRecord),
    processCase mode zf load present hasLabel = some rec →
    similarityFillFlag mode = true →
    present gaoqingT2 = false →
    ∀ (r : CombineResult),
      combineModalities mode zf load
          (validateCaseCompleteness mode present hasLabel).2 = .ok r →
      ∀ a b, r.channels[4]? = some (similarityFillGaoqingT2 a b) →
        gaoqingT2 ∈ rec.modalities

/-- C4 counterexample: a `similarity_fill` case with the optional modality
synthesized from the two T2 volumes emits a 5-channel volume whose last
channel is the synthesizer's output, yet the record's `'modalities'` field
is `list(modalities.keys())` — the four on-disk modalities — and omits the
synthesized one. -/
theorem record_omits_synthesized : ¬ recordListsSynthesized := by
  intro h
  have h2 := h similarityFill cexZoom cexLoadOk cexPresent true
    ⟨[ADC, DWI, T2fs, T2notfs], true⟩ rfl rfl rfl
    ⟨[cexVolADC, cexVolDWI, cexVolT2fs, cexVolT2notfs,
        similarityFillGaoqingT2 cexVolT2fs cexVolT2notfs], [], (1, 1, 1)⟩ rfl
    cexVolT2fs cexVolT2notfs rfl
  simp at h2

lemma validate_eq_cases (mode : ProcessingMode) (present : Modality → Bool)
    (hasLabel : Bool) :
    validateCaseCompleteness mode present hasLabel = (false, []) ∨
      validateCaseCompleteness mode present hasLabel
        = (true, checkModalitiesForCase mode present) := by
  unfold validateCaseCompleteness
  dsimp only
  split_ifs <;> first
    | exact Or.inl rfl
    | exact Or.inr rfl

lemma validate_snd_of_accept (mode : ProcessingMode) (present : Modality → Bool)
    (hasLabel : Bool) (h : (validateCaseCompleteness mode present hasLabel).1 = true) :
    (validateCaseCompleteness mode present hasLabel).2
      = checkModalitiesForCase mode present := by
  rcases validate_eq_cases mode present hasLabel with hv | hv <;> rw [hv] at h ⊢
  simp at h

/-- C4 amended: the record's modality list is exactly the validator's
available-on-disk modality dictionary (the mapped modalities whose file
exists, in mapping order) — it is what the descriptor record carries, but
it tracks disk presence, not contribution: a modality absent on disk, in
particular a synthesized one, never appears in it. -/
theorem record_modalities_are_disk_modalities (mode : ProcessingMode) (zf : ZoomOracle)
    (load : LoadOracle) (present : Modality → Bool) (hasLabel : Bool) (rec : CaseRecord)
    (h : processCase mode zf load present hasLabel = some rec) :
    rec.modalities = (modalityMapping mode).filter present ∧
      (present gaoqingT2 = false → gaoqingT2 ∉ rec.modalities) := by
  unfold processCase at h
  by_cases hv : (validateCaseCompleteness mode present hasLabel).1 = true
  · rw [if_pos hv] at h
    cases hc : combineModalities mode zf load
        (validateCaseCompleteness mode present hasLabel).2 with
    | error e => rw [hc] at h; simp at h
    | ok r =>
      rw [hc] at h
      simp only [Option.some.injEq] at h
      subst h
      have hsnd := validate_snd_of_accept mode present hasLabel hv
      constructor
      · simpa [checkModalitiesForCase] using hsnd
      · intro hng
        rw [hsnd]
        simp [checkModalitiesForCase, List.mem_filter, hng]
  · rw [if_neg hv] at h
    simp at h

/-- Witness for C4's amended theorem at the concrete similarity-fill
environment. -/
theorem record_modalities_are_disk_modalities_witness :
    processCase similarityFill cexZoom cexLoadOk cexPresent true
        = some ⟨[ADC, DWI, T2fs, T2notfs], true⟩ ∧
      ((⟨[ADC, DWI, T2fs, T2notfs], true⟩ : CaseRecord).modalities
          = (modalityMapping similarityFill).filter cexPresent ∧
        (cexPresent gaoqingT2 = false →
          gaoqingT2 ∉ (⟨[ADC, DWI, T2fs, T2notfs], true⟩ : CaseRecord).modalities)) :=
  ⟨rfl, record_modalities_are_disk_modalities similarityFill cexZoom cexLoadOk
    cexPresent true ⟨[ADC, DWI, T2fs, T2notfs], true⟩ rfl⟩

/-- The source volumes of the all-present witness environment. -/
def c2Vols : Modality → Vol
  | ADC => cexVolADC
  | DWI => cexVolDWI
  | T2fs => cexVolT2fs
  | T2notfs => cexVolT2notfs
  | gaoqingT2 => cexVolADC

/-- Witness for C2 at a concrete `core_4` case with all four core volumes
present, readable and of one shape. -/
theorem assemble_all_present_witness :
    ((∀ m ∈ modalityMapping core4, m ∈ cexAvail) ∧
      (∀ m ∈ modalityMapping core4, cexLoadOk m = some (c2Vols m)) ∧
      (∀ m ∈ modalityMapping core4, (c2Vols m).shape = (1, 1, 1))) ∧
      ∃ r, combineModalities core4 cexZoom cexLoadOk cexAvail = .ok r ∧
        r.channels.length = (modalityMapping core4).length ∧
        ∀ j (hj : j < (modalityMapping core4).length),
          r.channels[j]? = some (c2Vols ((modalityMapping core4).get ⟨j, hj⟩)) :=
  ⟨⟨by decide, by intro m hm; fin_cases hm <;> rfl, by intro m hm; fin_cases hm <;> rfl⟩,
    assemble_all_present core4 cexZoom cexLoadOk cexAvail c2Vols (1, 1, 1)
      (by decide) (by intro m hm; fin_cases hm <;> rfl)
      (by intro m hm; fin_cases hm <;> rfl)⟩

/-! ## Claim C6: the synthesis fallback under `similarity_fill` -/

lemma channelValue_gaoqing_missing (mode : ProcessingMode) (zf : ZoomOracle)
    (load : LoadOracle) (avail : List Modality) (rs : Shape3)
    (hg : gaoqingT2 ∉ avail) (hsim : similarityFillFlag mode = true) :
    channelValue mode zf load avail rs gaoqingT2 =
      if T2fs ∈ avail ∧ T2notfs ∈ avail then
        match load T2fs, load T2notfs with
        | some a, some b =>
          (match (if a.shape ≠ rs then resampleImage zf a rs else some a),
                 (if b.shape ≠ rs then resampleImage zf b rs else some b) with
           | some a2, some b2 => similarityFillGaoqingT2 a2 b2
           | _, _ => zeroVol rs)
        | _, _ => zeroVol rs
      else zeroVol rs := by
  unfold channelValue
  rw [if_neg hg]
  simp only [hsim, true_and, ite_true, if_pos rfl]

/-- C6: under `similarity_fill`, for every case missing the optional
high-resolution modality (with the reference modality readable), the case
is never rejected because of the synthesis path: assembly succeeds with 5
channels, the `gaoqing-T2` channel is the synthesizer's output when both
T2 sources are on disk and load and reconcile cleanly, and is a zero fill
of the reference shape when a T2 source is missing on disk, fails to
load, or fails reconciliation. -/
theorem synthesis_fallback_never_rejects (zf : ZoomOracle) (load : LoadOracle)
    (avail : List Modality) (hADC : ADC ∈ avail) (hg : gaoqingT2 ∉ avail)
    (w : Vol) (hw : load ADC = some w) :
    ∃ r, combineModalities similarityFill zf load avail = .ok r ∧
      r.channels.length = 5 ∧ r.refShape = w.shape ∧
      ((T2fs ∈ avail ∧ T2notfs ∈ avail) →
        ∀ a b, load T2fs = some a → load T2notfs = some b →
          ∀ a2 b2,
            (if a.shape ≠ w.shape then resampleImage zf a w.shape else some a) = some a2 →
            (if b.shape ≠ w.shape then resampleImage zf b w.shape else some b) = some b2 →
            r.channels[4]? = some (similarityFillGaoqingT2 a2 b2)) ∧
      ((T2fs ∈ avail ∧ T2notfs ∈ avail) →
        ∀ a b, load T2fs = some a → load T2notfs = some b →
          ((if a.shape ≠ w.shape then resampleImage zf a w.shape else some a) = none ∨
            (if b.shape ≠ w.shape then resampleImage zf b w.shape else some b) = none) →
          r.channels[4]? = some (zeroVol w.shape)) ∧
      ((T2fs ∈ avail ∧ T2notfs ∈ avail) →
        (load T2fs = none ∨ load T2notfs = none) →
        r.channels[4]? = some (zeroVol w.shape)) ∧
      (¬ (T2fs ∈ avail ∧ T2notfs ∈ avail) → r.channels[4]? = some (zeroVol w.shape)) := by
  obtain ⟨r, hr, hrs⟩ := @combineModalities_fill_ok similarityFill zf load avail rfl hADC w hw
  have hspec := @combineModalities_fill_spec similarityFill zf load avail rfl r hr
  have hch4 : r.channels[4]? =
      some (channelValue similarityFill zf load avail w.shape gaoqingT2) := by
    have := hspec.2 4 (by simp [modalityMapping])
    rwa [hrs] at this
  rw [channelValue_gaoqing_missing similarityFill zf load avail w.shape hg rfl] at hch4
  refine ⟨r, hr, by simpa [modalityMapping] using hspec.1, hrs, ?_, ?_, ?_, ?_⟩
  · intro hT a b ha hb a2 b2 hra hrb
    rw [if_pos hT, ha, hb] at hch4
    dsimp only at hch4
    rw [hra, hrb] at hch4
    exact hch4
  · intro hT a b ha hb hfail
    rw [if_pos hT, ha, hb] at hch4
    dsimp only at hch4
    rcases hfail with hfa | hfb
    · rw [hfa] at hch4
      exact hch4
    · rcases hra : (if a.shape ≠ w.shape then resampleImage zf a w.shape else some a) with
        _ | a2
      · rw [hra] at hch4
        exact hch4
      · rw [hra, hfb] at hch4
        exact hch4
  · intro hT hnone
    rw [if_pos hT] at hch4
    rcases hnone with ha | hb
    · rw [ha] at hch4
      exact hch4
    · rcases ha' : load T2fs with _ | a
      · rw [ha'] at hch4
        exact hch4
      · rw [ha', hb] at hch4
        exact hch4
  · intro hT
    rw [if_neg hT] at hch4
    exact hch4

/-- Witness for C6 at the concrete environment: both T2 volumes on disk,
readable, and already of the reference shape, so the optional channel is
the synthesizer's output. -/
theorem synthesis_fallback_never_rejects_witness :
    (ADC ∈ cexAvail ∧ gaoqingT2 ∉ cexAvail ∧ cexLoadOk ADC = some cexVolADC) ∧
      ∃ r, combineModalities similarityFill cexZoom cexLoadOk cexAvail = .ok r ∧
        r.channels[4]? =
          some (similarityFillGaoqingT2 cexVolT2fs cexVolT2notfs) := by
  obtain ⟨r, hr, -, -, hsynth, -, -, -⟩ :=
    synthesis_fallback_never_rejects cexZoom cexLoadOk cexAvail (by decide) (by decide)
      cexVolADC rfl
  exact ⟨⟨by decide, by decide, rfl⟩,
    r, hr, hsynth (by decide) cexVolT2fs cexVolT2notfs rfl rfl cexVolT2fs cexVolT2notfs
      (by norm_num [cexVolT2fs, cexVolADC, constVol]) (by norm_num [cexVolT2notfs, cexVolADC, constVol])⟩

/-! ## Value-list and fold lemmas for the synthesizer claims -/

lemma foldl_min_le (xs : List ℝ) : ∀ x : ℝ, xs.foldl min x ≤ x := by
  induction xs with
  | nil => intro x; exact le_refl x
  | cons y ys ih =>
    intro x
    exact le_trans (ih (min x y)) (min_le_left x y)

lemma le_foldl_max (xs : List ℝ) : ∀ x : ℝ, x ≤ xs.foldl max x := by
  induction xs with
  | nil => intro x; exact le_refl x
  | cons y ys ih =>
    intro x
    exact le_trans (le_max_left x y) (ih (max x y))

lemma le_foldl_min (lo : ℝ) (xs : List ℝ) :
    ∀ x : ℝ, lo ≤ x → (∀ y ∈ xs, lo ≤ y) → lo ≤ xs.foldl min x := by
  induction xs with
  | nil => intro x hx _; exact hx
  | cons y ys ih =>
    intro x hx hmem
    exact ih (min x y) (le_min hx (hmem y (List.mem_cons_self y ys)))
      fun z hz => hmem z (List.mem_cons_of_mem y hz)

lemma foldl_max_le (hi : ℝ) (xs : List ℝ) :
    ∀ x : ℝ, x ≤ hi → (∀ y ∈ xs, y ≤ hi) → xs.foldl max x ≤ hi := by
  induction xs with
  | nil => intro x hx _; exact hx
  | cons y ys ih =>
    intro x hx hmem
    exact ih (max x y) (max_le hx (hmem y (List.mem_cons_self y ys)))
      fun z hz => hmem z (List.mem_cons_of_mem y hz)

lemma mem_valuesList (v : Vol) {i j k : ℕ} (hi : i < v.shape.1)
    (hj : j < v.shape.2.1) (hk : k < v.shape.2.2) :
    v.data i j k ∈ v.valuesList := by
  unfold Vol.valuesList
  simp only [List.mem_flatMap, List.mem_map, List.mem_range]
  exact ⟨i, hi, j, hj, k, hk, rfl⟩

lemma of_mem_valuesList {v : Vol} {x : ℝ} (h : x ∈ v.valuesList) :
    ∃ i j k, x = v.data i j k := by
  unfold Vol.valuesList at h
  simp only [List.mem_flatMap, List.mem_map, List.mem_range] at h
  obtain ⟨i, -, j, -, k, -, rfl⟩ := h
  exact ⟨i, j, k, rfl⟩

lemma valuesList_ne_nil {v : Vol} (h : v.nonemptyVol) : v.valuesList ≠ [] :=
  List.ne_nil_of_mem (mem_valuesList v h.1 h.2.1 h.2.2)

lemma vmin_spec (v : Vol) (x : ℝ) (xs : List ℝ) (h : v.valuesList = x :: xs) :
    v.vmin = xs.foldl min x := by
  unfold Vol.vmin
  rw [h]

lemma vmax_spec (v : Vol) (x : ℝ) (xs : List ℝ) (h : v.valuesList = x :: xs) :
    v.vmax = xs.foldl max x := by
  unfold Vol.vmax
  rw [h]

lemma vmin_le_vmax {v : Vol} (h : v.valuesList ≠ []) : v.vmin ≤ v.vmax := by
  cases hv : v.valuesList with
  | nil => exact absurd hv h
  | cons x xs =>
    rw [vmin_spec v x xs hv, vmax_spec v x xs hv]
    exact le_trans (foldl_min_le xs x) (le_foldl_max xs x)

lemma clipR_bounds (x lo hi : ℝ) (h : lo ≤ hi) :
    lo ≤ clipR x lo hi ∧ clipR x lo hi ≤ hi :=
  ⟨le_min (le_max_right x lo) h, min_le_right _ _⟩

/-! ## Claim C5: the synthesized intensity envelope -/

lemma similarityFill_shape (a b : Vol) :
    (similarityFillGaoqingT2 a b).shape = a.shape := rfl

lemma similarityFill_data (a b : Vol) (i j k : ℕ) :
    (similarityFillGaoqingT2 a b).data i j k =
      clipR (0.8 * (sfNormalized a b).data i j k + 0.2 * (sfTextured a b).data i j k)
        (sfOriginalMin a b) (sfOriginalMax a b) := rfl

/-- C5: for every pair of equal-shape nonempty source volumes, every voxel
of the synthesized output — and hence its min and max — lies in the
intensity envelope `[min(A.min, B.min), max(A.max, B.max)]`: the final
`np.clip` back to the envelope enforces it. -/
theorem synth_envelope (a b : Vol) (hne : a.nonemptyVol) (hsh : b.shape = a.shape) :
    (∀ x ∈ (similarityFillGaoqingT2 a b).valuesList,
        sfOriginalMin a b ≤ x ∧ x ≤ sfOriginalMax a b) ∧
      sfOriginalMin a b ≤ (similarityFillGaoqingT2 a b).vmin ∧
      (similarityFillGaoqingT2 a b).vmax ≤ sfOriginalMax a b := by
  have hanil : a.valuesList ≠ [] := valuesList_ne_nil hne
  have hlohi : sfOriginalMin a b ≤ sfOriginalMax a b :=
    le_trans (min_le_left _ _)
      (le_trans (vmin_le_vmax hanil) (le_max_left _ _))
  have hall : ∀ x ∈ (similarityFillGaoqingT2 a b).valuesList,
      sfOriginalMin a b ≤ x ∧ x ≤ sfOriginalMax a b := by
    intro x hx
    obtain ⟨i, j, k, rfl⟩ := of_mem_valuesList hx
    rw [similarityFill_data]
    exact clipR_bounds _ _ _ hlohi
  refine ⟨hall, ?_⟩
  have hone : (similarityFillGaoqingT2 a b).nonemptyVol := by
    rw [Vol.nonemptyVol, similarityFill_shape]
    exact hne
  cases hv : (similarityFillGaoqingT2 a b).valuesList with
  | nil => exact absurd hv (valuesList_ne_nil hone)
  | cons x xs =>
    have hx := hall x (by rw [hv]; exact List.mem_cons_self x xs)
    have hxs : ∀ y ∈ xs, sfOriginalMin a b ≤ y ∧ y ≤ sfOriginalMax a b :=
      fun y hy => hall y (by rw [hv]; exact List.mem_cons_of_mem x hy)
    rw [vmin_spec _ x xs hv, vmax_spec _ x xs hv]
    exact ⟨le_foldl_min _ xs x hx.1 fun y hy => (hxs y hy).1,
      foldl_max_le _ xs x hx.2 fun y hy => (hxs y hy).2⟩

/-- Witness for C5 at two concrete equal-shape volumes. -/
theorem synth_envelope_witness :
    (cexVolT2fs.nonemptyVol ∧ cexVolT2notfs.shape = cexVolT2fs.shape) ∧
      (∀ x ∈ (similarityFillGaoqingT2 cexVolT2fs cexVolT2notfs).valuesList,
          sfOriginalMin cexVolT2fs cexVolT2notfs ≤ x ∧
            x ≤ sfOriginalMax cexVolT2fs cexVolT2notfs) ∧
        sfOriginalMin cexVolT2fs cexVolT2notfs ≤
            (similarityFillGaoqingT2 cexVolT2fs cexVolT2notfs).vmin ∧
          (similarityFillGaoqingT2 cexVolT2fs cexVolT2notfs).vmax ≤
            sfOriginalMax cexVolT2fs cexVolT2notfs :=
  ⟨⟨⟨Nat.one_pos, Nat.one_pos, Nat.one_pos⟩, rfl⟩,
    synth_envelope cexVolT2fs cexVolT2notfs ⟨Nat.one_pos, Nat.one_pos, Nat.one_pos⟩ rfl⟩

/-! ## Claim C9: the synthesizer is a function of its inputs' array content -/

lemma reflectIdx_lt (n : ℕ) (z : ℤ) (hn : 0 < n) : reflectIdx n z < n := by
  unfold reflectIdx
  rw [if_neg (Nat.pos_iff_ne_zero.mp hn)]
  have h2n : (0 : ℤ) < 2 * (n : ℤ) := by positivity
  have hr0 : 0 ≤ z % (2 * (n : ℤ)) := Int.emod_nonneg z (ne_of_gt h2n)
  have hrlt : z % (2 * (n : ℤ)) < 2 * (n : ℤ) := Int.emod_lt_of_pos z h2n
  dsimp only
  split_ifs with h
  · omega
  · omega

lemma valuesList_congr {u u' : Vol} (h : sameContent u u') :
    u.valuesList = u'.valuesList := by
  unfold Vol.valuesList
  rw [← h.1]
  apply List.flatMap_congr
  intro i hi
  apply List.flatMap_congr
  intro j hj
  apply List.map_congr_left
  intro k hk
  exact h.2 i j k (List.mem_range.mp hi) (List.mem_range.mp hj) (List.mem_range.mp hk)

lemma vmin_congr {u u' : Vol} (h : sameContent u u') : u.vmin = u'.vmin := by
  unfold Vol.vmin
  rw [valuesList_congr h]

lemma vmax_congr {u u' : Vol} (h : sameContent u u') : u.vmax = u'.vmax := by
  unfold Vol.vmax
  rw [valuesList_congr h]

lemma sfBase_sameContent {a a' b b' : Vol} (hsh : b.shape = a.shape)
    (h1 : sameContent a a') (h2 : sameContent b b') :
    sameContent (sfBase a b) (sfBase a' b') := by
  refine ⟨h1.1, ?_⟩
  intro i j k hi hj hk
  show 0.6 * a.data i j k + 0.4 * b.data i j k
      = 0.6 * a'.data i j k + 0.4 * b'.data i j k
  rw [h1.2 i j k hi hj hk, h2.2 i j k (by rw [hsh]; exact hi) (by rw [hsh]; exact hj)
    (by rw [hsh]; exact hk)]

lemma gaussAxis0_sameContent {u u' : Vol} (h : sameContent u u') :
    sameContent (gaussAxis0 u) (gaussAxis0 u') := by
  refine ⟨h.1, ?_⟩
  intro i j k hi hj hk
  show (∑ t ∈ Finset.Icc (-2 : ℤ) 2,
      gkernel t * u.data (reflectIdx u.shape.1 ((i : ℤ) + t)) j k)
      = ∑ t ∈ Finset.Icc (-2 : ℤ) 2,
          gkernel t * u'.data (reflectIdx u'.shape.1 ((i : ℤ) + t)) j k
  rw [← h.1]
  apply Finset.sum_congr rfl
  intro t _
  rw [h.2 _ j k (reflectIdx_lt _ _ (Nat.lt_of_le_of_lt (Nat.zero_le i) hi)) hj hk]

lemma gaussAxis1_sameContent {u u' : Vol} (h : sameContent u u') :
    sameContent (gaussAxis1 u) (gaussAxis1 u') := by
  refine ⟨h.1, ?_⟩
  intro i j k hi hj hk
  show (∑ t ∈ Finset.Icc (-2 : ℤ) 2,
      gkernel t * u.data i (reflectIdx u.shape.2.1 ((j : ℤ) + t)) k)
      = ∑ t ∈ Finset.Icc (-2 : ℤ) 2,
          gkernel t * u'.data i (reflectIdx u'.shape.2.1 ((j : ℤ) + t)) k
  rw [← h.1]
  apply Finset.sum_congr rfl
  intro t _
  rw [h.2 i _ k hi (reflectIdx_lt _ _ (Nat.lt_of_le_of_lt (Nat.zero_le j) hj)) hk]

lemma gaussAxis2_sameContent {u u' : Vol} (h : sameContent u u') :
    sameContent (gaussAxis2 u) (gaussAxis2 u') := by
  refine ⟨h.1, ?_⟩
  intro i j k hi hj hk
  show (∑ t ∈ Finset.Icc (-2 : ℤ) 2,
      gkernel t * u.data i j (reflectIdx u.shape.2.2 ((k : ℤ) + t)))
      = ∑ t ∈ Finset.Icc (-2 : ℤ) 2,
          gkernel t * u'.data i j (reflectIdx u'.shape.2.2 ((k : ℤ) + t))
  rw [← h.1]
  apply Finset.sum_congr rfl
  intro t _
  rw [h.2 i j _ hi hj (reflectIdx_lt _ _ (Nat.lt_of_le_of_lt (Nat.zero_le k) hk))]

lemma gaussianFilter_sameContent {u u' : Vol} (h : sameContent u u') :
    sameContent (gaussianFilter u) (gaussianFilter u') :=
  gaussAxis2_sameContent (gaussAxis1_sameContent (gaussAxis0_sameContent h))

lemma sfEnhancedRaw_sameContent {a a' b b' : Vol} (hsh : b.shape = a.shape)
    (h1 : sameContent a a') (h2 : sameContent b b') :
    sameContent (sfEnhancedRaw a b) (sfEnhancedRaw a' b') := by
  have hb := sfBase_sameContent hsh h1 h2
  have hg := gaussianFilter_sameContent hb
  refine ⟨h1.1, ?_⟩
  intro i j k hi hj hk
  show (sfBase a b).data i j k
        + 0.3 * ((sfBase a b).data i j k - (gaussianFilter (sfBase a b)).data i j k)
      = (sfBase a' b').data i j k
        + 0.3 * ((sfBase a' b').data i j k - (gaussianFilter (sfBase a' b')).data i j k)
  rw [hb.2 i j k hi hj hk, hg.2 i j k hi hj hk]

lemma sfP1_congr {a a' b b' : Vol} (hsh : b.shape = a.shape)
    (h1 : sameContent a a') (h2 : sameContent b b') : sfP1 a b = sfP1 a' b' := by
  unfold sfP1
  rw [valuesList_congr (sfEnhancedRaw_sameContent hsh h1 h2)]

lemma sfP99_congr {a a' b b' : Vol} (hsh : b.shape = a.shape)
    (h1 : sameContent a a') (h2 : sameContent b b') : sfP99 a b = sfP99 a' b' := by
  unfold sfP99
  rw [valuesList_congr (sfEnhancedRaw_sameContent hsh h1 h2)]

lemma sfEnhanced_sameContent {a a' b b' : Vol} (hsh : b.shape = a.shape)
    (h1 : sameContent a a') (h2 : sameContent b b') :
    sameContent (sfEnhanced a b) (sfEnhanced a' b') := by
  have hr := sfEnhancedRaw_sameContent hsh h1 h2
  refine ⟨h1.1, ?_⟩
  intro i j k hi hj hk
  show clipR ((sfEnhancedRaw a b).data i j k) (sfP1 a b) (sfP99 a b)
      = clipR ((sfEnhancedRaw a' b').data i j k) (sfP1 a' b') (sfP99 a' b')
  rw [hr.2 i j k hi hj hk, sfP1_congr hsh h1 h2, sfP99_congr hsh h1 h2]

lemma sfOriginalMin_congr {a a' b b' : Vol} (h1 : sameContent a a')
    (h2 : sameContent b b') : sfOriginalMin a b = sfOriginalMin a' b' := by
  unfold sfOriginalMin
  rw [vmin_congr h1, vmin_congr h2]

lemma sfOriginalMax_congr {a a' b b' : Vol} (h1 : sameContent a a')
    (h2 : sameContent b b') : sfOriginalMax a b = sfOriginalMax a' b' := by
  unfold sfOriginalMax
  rw [vmax_congr h1, vmax_congr h2]

lemma sfDenom_congr {a a' b b' : Vol} (hsh : b.shape = a.shape)
    (h1 : sameContent a a') (h2 : sameContent b b') : sfDenom a b = sfDenom a' b' := by
  unfold sfDenom
  rw [vmin_congr (sfEnhanced_sameContent hsh h1 h2),
    vmax_congr (sfEnhanced_sameContent hsh h1 h2)]

lemma sfNormalized_sameContent {a a' b b' : Vol} (hsh : b.shape = a.shape)
    (h1 : sameContent a a') (h2 : sameContent b b') :
    sameContent (sfNormalized a b) (sfNormalized a' b') := by
  have he := sfEnhanced_sameContent hsh h1 h2
  refine ⟨h1.1, ?_⟩
  intro i j k hi hj hk
  show ((sfEnhanced a b).data i j k - (sfEnhanced a b).vmin) / sfDenom a b
        * (sfOriginalMax a b - sfOriginalMin a b) + sfOriginalMin a b
      = ((sfEnhanced a' b').data i j k - (sfEnhanced a' b').vmin) / sfDenom a' b'
          * (sfOriginalMax a' b' - sfOriginalMin a' b') + sfOriginalMin a' b'
  rw [he.2 i j k hi hj hk, vmin_congr he, sfDenom_congr hsh h1 h2,
    sfOriginalMax_congr h1 h2, sfOriginalMin_congr h1 h2]

lemma sfTextured_sameContent {a a' b b' : Vol} (hsh : b.shape = a.shape)
    (h1 : sameContent a a') (h2 : sameContent b b') :
    sameContent (sfTextured a b) (sfTextured a' b') := by
  have hn := sfNormalized_sameContent hsh h1 h2
  refine ⟨h1.1, ?_⟩
  intro i j k hi hj hk
  show (∑ u ∈ Finset.Icc (-1 : ℤ) 1, ∑ v ∈ Finset.Icc (-1 : ℤ) 1,
      textureKernel u v * (sfNormalized a b).data
        (reflectIdx (sfNormalized a b).shape.1 ((i : ℤ) + u))
        (reflectIdx (sfNormalized a b).shape.2.1 ((j : ℤ) + v)) k)
      = ∑ u ∈ Finset.Icc (-1 : ℤ) 1, ∑ v ∈ Finset.Icc (-1 : ℤ) 1,
          textureKernel u v * (sfNormalized a' b').data
            (reflectIdx (sfNormalized a' b').shape.1 ((i : ℤ) + u))
            (reflectIdx (sfNormalized a' b').shape.2.1 ((j : ℤ) + v)) k
  rw [← hn.1]
  apply Finset.sum_congr rfl
  intro u _
  apply Finset.sum_congr rfl
  intro v _
  rw [hn.2 _ _ k (reflectIdx_lt _ _ (Nat.lt_of_le_of_lt (Nat.zero_le i) hi))
    (reflectIdx_lt _ _ (Nat.lt_of_le_of_lt (Nat.zero_le j) hj)) hk]

/-- C9: the synthesizer is deterministic — it is a pure function of its
input arrays: two runs on inputs holding the same voxel content (same
shape, same in-shape values) produce outputs holding the same voxel
content; there is no hidden state or randomness in the pipeline. -/
theorem synth_deterministic (a a' b b' : Vol) (hsh : b.shape = a.shape)
    (h1 : sameContent a a') (h2 : sameContent b b') :
    sameContent (similarityFillGaoqingT2 a b) (similarityFillGaoqingT2 a' b') := by
  have hn := sfNormalized_sameContent hsh h1 h2
  have ht := sfTextured_sameContent hsh h1 h2
  refine ⟨h1.1, ?_⟩
  intro i j k hi hj hk
  rw [similarityFill_data, similarityFill_data]
  rw [hn.2 i j k hi hj hk, ht.2 i j k hi hj hk,
    sfOriginalMin_congr h1 h2, sfOriginalMax_congr h1 h2]

/-- Witness for C9: re-running the synthesizer on the same concrete pair
of volumes (in particular with identical `A` and `B`) reproduces the same
content. -/
theorem synth_deterministic_witness :
    (cexVolT2fs.shape = cexVolT2fs.shape ∧
      sameContent cexVolT2fs cexVolT2fs) ∧
      sameContent (similarityFillGaoqingT2 cexVolT2fs cexVolT2fs)
        (similarityFillGaoqingT2 cexVolT2fs cexVolT2fs) :=
  ⟨⟨rfl, ⟨rfl, fun _ _ _ _ _ _ => rfl⟩⟩,
    synth_deterministic cexVolT2fs cexVolT2fs cexVolT2fs cexVolT2fs rfl
      ⟨rfl, fun _ _ _ _ _ _ => rfl⟩ ⟨rfl, fun _ _ _ _ _ _ => rfl⟩⟩

/-! ## Claim C10: the intensity-renormalization denominator -/

/-- All voxel entries of the volume equal `c`. -/
def isConstVol (v : Vol) (c : ℝ) : Prop := ∀ i j k, v.data i j k = c

lemma gaussNorm_pos : 0 < gaussNorm :=
  Finset.sum_pos (fun x _ => Real.exp_pos _) ⟨0, by decide⟩

lemma gkernel_sum : ∑ t ∈ Finset.Icc (-2 : ℤ) 2, gkernel t = 1 := by
  unfold gkernel
  rw [← Finset.sum_div]
  exact div_self (ne_of_gt gaussNorm_pos)

lemma sfBase_const {a b : Vol} {c : ℝ} (ha : isConstVol a c) (hb : isConstVol b c) :
    isConstVol (sfBase a b) c := by
  intro i j k
  show 0.6 * a.data i j k + 0.4 * b.data i j k = c
  rw [ha i j k, hb i j k]
  ring

lemma gaussAxis0_const {v : Vol} {c : ℝ} (hv : isConstVol v c) :
    isConstVol (gaussAxis0 v) c := by
  intro i j k
  show (∑ t ∈ Finset.Icc (-2 : ℤ) 2,
      gkernel t * v.data (reflectIdx v.shape.1 ((i : ℤ) + t)) j k) = c
  have hv' : ∀ i j k, v.data i j k = c := hv
  simp only [hv']
  rw [← Finset.sum_mul, gkernel_sum, one_mul]

lemma gaussAxis1_const {v : Vol} {c : ℝ} (hv : isConstVol v c) :
    isConstVol (gaussAxis1 v) c := by
  intro i j k
  show (∑ t ∈ Finset.Icc (-2 : ℤ) 2,
      gkernel t * v.data i (reflectIdx v.shape.2.1 ((j : ℤ) + t)) k) = c
  have hv' : ∀ i j k, v.data i j k = c := hv
  simp only [hv']
  rw [← Finset.sum_mul, gkernel_sum, one_mul]

lemma gaussAxis2_const {v : Vol} {c : ℝ} (hv : isConstVol v c) :
    isConstVol (gaussAxis2 v) c := by
  intro i j k
  show (∑ t ∈ Finset.Icc (-2 : ℤ) 2,
      gkernel t * v.data i j (reflectIdx v.shape.2.2 ((k : ℤ) + t))) = c
  have hv' : ∀ i j k, v.data i j k = c := hv
  simp only [hv']
  rw [← Finset.sum_mul, gkernel_sum, one_mul]

lemma gaussianFilter_const {v : Vol} {c : ℝ} (hv : isConstVol v c) :
    isConstVol (gaussianFilter v) c :=
  gaussAxis2_const (gaussAxis1_const (gaussAxis0_const hv))

lemma sfEnhancedRaw_const {a b : Vol} {c : ℝ} (ha : isConstVol a c)
    (hb : isConstVol b c) : isConstVol (sfEnhancedRaw a b) c := by
  intro i j k
  have hbase := sfBase_const ha hb
  have hsm := gaussianFilter_const hbase
  show (sfBase a b).data i j k
      + 0.3 * ((sfBase a b).data i j k - (gaussianFilter (sfBase a b)).data i j k) = c
  rw [hbase i j k, hsm i j k]
  ring

lemma valuesList_one (v : Vol) (c : ℝ) (hs : v.shape = (1, 1, 1))
    (hv : isConstVol v c) : v.valuesList = [c] := by
  unfold Vol.valuesList
  rw [hs]
  have hv' : ∀ i j k, v.data i j k = c := hv
  simp [show List.range 1 = [0] from rfl, hv']

lemma percentile_singleton (c : ℝ) (q : ℚ) : percentileList [c] q = c := by
  unfold percentileList
  simp [List.mergeSort, show Rat.floor 0 = (0 : ℤ) from rfl,
    show Rat.ceil 0 = (0 : ℤ) from rfl]

lemma sfDenom_const (c : ℝ) :
    sfDenom (constVol (1, 1, 1) c) (constVol (1, 1, 1) c) = 0 := by
  have hconst : isConstVol (constVol (1, 1, 1) c) c := fun _ _ _ => rfl
  have hraw := sfEnhancedRaw_const hconst hconst
  have hvals : (sfEnhancedRaw (constVol (1, 1, 1) c) (constVol (1, 1, 1) c)).valuesList
      = [c] := valuesList_one _ c rfl hraw
  have hp1 : sfP1 (constVol (1, 1, 1) c) (constVol (1, 1, 1) c) = c := by
    unfold sfP1
    rw [hvals]
    exact percentile_singleton c 1
  have hp99 : sfP99 (constVol (1, 1, 1) c) (constVol (1, 1, 1) c) = c := by
    unfold sfP99
    rw [hvals]
    exact percentile_singleton c 99
  have henh : isConstVol (sfEnhanced (constVol (1, 1, 1) c) (constVol (1, 1, 1) c)) c := by
    intro i j k
    show clipR ((sfEnhancedRaw _ _).data i j k) (sfP1 _ _) (sfP99 _ _) = c
    rw [hraw i j k, hp1, hp99]
    simp [clipR]
  have hvalse : (sfEnhanced (constVol (1, 1, 1) c) (constVol (1, 1, 1) c)).valuesList
      = [c] := valuesList_one _ c rfl henh
  unfold sfDenom
  rw [vmin_spec _ c [] hvalse, vmax_spec _ c [] hvalse]
  simp

/-- C10's claimed guard: for every pair of equal-shape (finite — vacuous
over the exact reals) inputs, the renormalization denominator
`enhanced.max() - enhanced.min()` is non-zero. -/
def synthDenomGuarded : Prop :=
  ∀ a b : Vol, a.shape = b.shape → sfDenom a b ≠ 0

/-- C10 counterexample: the division is not guarded — for two identical
constant volumes the clipped enhanced volume has zero dynamic range, so
the denominator is exactly `0` (in IEEE float arithmetic the output is
then all-NaN rather than finite). -/
theorem synth_denominator_unguarded : ¬ synthDenomGuarded :=
  fun h => h (constVol (1, 1, 1) 5) (constVol (1, 1, 1) 5) rfl (sfDenom_const 5)

/-- C10 amended: the renormalization divides by
`enhanced.max() - enhanced.min()` with no zero guard; for every pair of
identical constant volumes that denominator is exactly `0`, so the float
code's synthesized output is non-finite there instead of finite. -/
theorem synth_denominator_zero_on_const (c : ℝ) :
    sfDenom (constVol (1, 1, 1) c) (constVol (1, 1, 1) c) = 0 :=
  sfDenom_const c

end BPHPCA
